import Mathlib

/-!
Verification of the Unified-Model energy-harvester simulation framework.

This file gives a shallow embedding, in Lean 4, of the parts of the
repository relevant to the frozen claims:

* `src/unified_model/electrical_model.py` — `_gradient`, `ElectricalModel`
  with `get_flux_gradient`, `get_emf`, `get_current`;
* `src/unified_model/mechanical_components/damper.py` — `ConstantDamper`;
* `src/unified_model/mechanical_system/spring/magnetic_spring.py` —
  `MagneticSpring.get_force`;
* `src/unified_model/unified.py` — `UnifiedModel.solve`,
  `set_post_processing_pipeline`, `_apply_pipeline`, `save_to_disk`,
  `load_from_disk`;
* `src/unified_model/electrical_system/flux/utils.py` — `FluxDatabase`
  (`_create_index`, `_make_db_key`, `add`, `query`).

Conventions of the embedding:

* Real scalars (positions, velocities, resistances, times) are `ℚ`.
  Quantities that the Python code can drive to IEEE-754 `inf`/`nan`
  (interpolated flux values and their finite-difference gradients) live in
  `PyFloat`, rationals extended with `inf`, `-inf` and `nan`, with the
  IEEE rules for the subtraction and positive-constant division that the
  source performs on them.
* Python exceptions are modelled with `Except PyErr`; fallible operations
  return `Except PyErr α`.
* Python `dict`s are modelled as association lists in insertion order:
  assignment to an existing key updates it in place, assignment to a new
  key appends.
* `numpy` arrays are modelled as functions out of `Fin`;
  `scipy.integrate.solve_ivp` is external to the repository, so it is
  modelled by the record of arguments the repository passes to it
  (`SolveIvpArgs`) together with an abstract `integrator` parameter that
  produces the solution object.
-/

/-- Python exception kinds raised (or documented as raised) by the embedded
code paths. -/
inductive PyErr where
  | typeError
  | keyError
  | valueError
  | fileExistsError
  | fileNotFoundError
deriving DecidableEq

/-- IEEE-style scalar: a rational, `inf`, `-inf`, or `nan`.  Used for values
produced by interpolated flux models and their finite differences. -/
inductive PyFloat where
  | finite : ℚ → PyFloat
  | inf : PyFloat
  | negInf : PyFloat
  | nan : PyFloat
deriving DecidableEq

/-- IEEE-754 subtraction on `PyFloat` (as performed by
`f(x + delta_x) - f(x - delta_x)` in `_gradient`). -/
def PyFloat.sub : PyFloat → PyFloat → PyFloat
  | nan, _ => nan
  | _, nan => nan
  | finite a, finite b => finite (a - b)
  | finite _, inf => negInf
  | finite _, negInf => inf
  | inf, finite _ => inf
  | inf, inf => nan
  | inf, negInf => inf
  | negInf, finite _ => negInf
  | negInf, inf => negInf
  | negInf, negInf => nan

/-- Division of a `PyFloat` by a finite positive rational constant (the
`2*delta_x` divisor in `_gradient`; `delta_x` is the fixed positive step
`1e-3`, so the divisor is positive and the sign of infinities is kept). -/
def PyFloat.divPos : PyFloat → ℚ → PyFloat
  | finite a, c => finite (a / c)
  | inf, _ => inf
  | negInf, _ => negInf
  | nan, _ => nan

/-- `np.isinf`: true exactly on the two infinities (false on `nan`). -/
def PyFloat.isInf : PyFloat → Bool
  | inf => true
  | negInf => true
  | _ => false

/-- `np.isnan`. -/
def PyFloat.isNan : PyFloat → Bool
  | nan => true
  | _ => false

/-- The fixed finite-difference step `delta_x = 1e-3` of `_gradient`
(`electrical_model.py`); the function is always called with its default. -/
def deltaX : ℚ := 1 / 1000

/-- The raw central finite difference
`(f(x + delta_x) - f(x - delta_x)) / (2*delta_x)` computed inside
`_gradient` before the infinity guard. -/
def central_difference (f : ℚ → PyFloat) (x : ℚ) : PyFloat :=
  PyFloat.divPos (PyFloat.sub (f (x + deltaX)) (f (x - deltaX))) (2 * deltaX)

/-- `_gradient(f, x, delta_x=1e-3)` from `electrical_model.py`: the central
finite difference, with the result replaced by `0.0` when `np.isinf` holds
of it (note: only `isinf` is tested, not `isnan`). -/
def fd_gradient (f : ℚ → PyFloat) (x : ℚ) : PyFloat :=
  let g := central_difference f x
  if g.isInf then PyFloat.finite 0 else g

/-- The load model installed via `ElectricalModel.set_load_model`; only its
resistance attribute `R` is read by the embedded code. -/
structure LoadModel where
  R : ℚ

/-- `ElectricalModel` (`electrical_model.py`).  `flux_model` and the cached
`flux_gradient` are interpolated-data functions and may return non-finite
values, hence `PyFloat`-valued; `dflux_model` is the analytic derivative
installed by `set_flux_model`.  `load_model` is `None` or a load object
(`Option LoadModel`); the constructor default `coil_resistance = np.inf`
plays no role in the claims, which quantify over finite installed
resistances. -/
structure ElectricalModel where
  name : String
  flux_model : ℚ → PyFloat
  dflux_model : ℚ → ℚ
  coil_resistance : ℚ
  load_model : Option LoadModel
  flux_gradient : ℚ → PyFloat
  precompute_gradient : Bool

/-- `ElectricalModel.get_flux_gradient(y)`: unpacks
`x1, x2, x3, x4, x5 = y` and evaluates at `x3 - x1`, using the cached
`flux_gradient` when `precompute_gradient is True` and the on-demand
finite difference of `flux_model` otherwise. -/
def ElectricalModel.get_flux_gradient (em : ElectricalModel) (y : Fin 5 → ℚ) : PyFloat :=
  let x1 := y 0
  let x3 := y 2
  if em.precompute_gradient then em.flux_gradient (x3 - x1)
  else fd_gradient em.flux_model (x3 - x1)

/-- `ElectricalModel.get_emf(mag_pos, mag_vel)`:
`dphi_dz = self.dflux_model(mag_pos); emf = dphi_dz * mag_vel`. -/
def ElectricalModel.get_emf (em : ElectricalModel) (mag_pos mag_vel : ℚ) : ℚ :=
  let dphi_dz := em.dflux_model mag_pos
  dphi_dz * mag_vel

/-- `ElectricalModel.get_current(emf_oc)`: `0` when `self.load_model` is
`None` (`if not self.load_model`), otherwise the voltage-divider current
`(emf_oc * r_load / (r_load + r_coil)) / r_load`. -/
def ElectricalModel.get_current (em : ElectricalModel) (emf_oc : ℚ) : ℚ :=
  match em.load_model with
  | none => 0
  | some load =>
      let r_load := load.R
      let r_coil := em.coil_resistance
      let v_load := emf_oc * r_load / (r_load + r_coil)
      v_load / r_load

/-- `ConstantDamper` (`mechanical_components/damper.py`). -/
structure ConstantDamper where
  damping_coefficient : ℚ

/-- `ConstantDamper.get_force(velocity) = self.damping_coefficient * velocity`. -/
def ConstantDamper.get_force (d : ConstantDamper) (velocity : ℚ) : ℚ :=
  d.damping_coefficient * velocity

/-- The callable stored in `MagneticSpring.model`: either a fitted
interpolator called as `model(z)`, or a closed-form model family called as
`model(z, *model_parameters)`.  The two call arities are kept apart so that
a mismatched call surfaces as a `TypeError`, as it would in Python. -/
inductive SpringModelFn where
  | interp : (ℚ → ℚ) → SpringModelFn
  | family : (ℚ → List ℚ → ℚ) → SpringModelFn

/-- `MagneticSpring` (`mechanical_system/spring/magnetic_spring.py`).  The
FEA dataframe is kept abstractly as its `(z, force)` sample pairs. -/
structure MagneticSpring where
  fea_dataframe : List (ℚ × ℚ)
  model_parameters : List ℚ
  model_type : String
  model : SpringModelFn

/-- `MagneticSpring.get_force(z)`: `self.model(z)` when
`self.model_type is 'interp'`, otherwise
`self.model(z, *self.model_parameters)`; a call whose arity does not match
the stored callable raises `TypeError`. -/
def MagneticSpring.get_force (s : MagneticSpring) (z : ℚ) : Except PyErr ℚ :=
  if s.model_type = "interp" then
    match s.model with
    | SpringModelFn.interp f => Except.ok (f z)
    | SpringModelFn.family _ => Except.error PyErr.typeError
  else
    match s.model with
    | SpringModelFn.family f => Except.ok (f z s.model_parameters)
    | SpringModelFn.interp f =>
        if s.model_parameters = [] then Except.ok (f z)
        else Except.error PyErr.typeError

/-! State-passing translations of the evaluation methods, for the
frame/no-mutation claim.  Each method body in the source contains no
assignment to `self`, so the post-state record rebuilds every attribute
with its pre-call value. -/

/-- State-passing `ConstantDamper.get_force`: result plus the receiver
after the call (no attribute of `self` is written in the body). -/
def ConstantDamper.get_force_s (d : ConstantDamper) (velocity : ℚ) :
    ℚ × ConstantDamper :=
  (d.get_force velocity, { damping_coefficient := d.damping_coefficient })

/-- State-passing `MagneticSpring.get_force` (no attribute writes). -/
def MagneticSpring.get_force_s (s : MagneticSpring) (z : ℚ) :
    Except PyErr ℚ × MagneticSpring :=
  (s.get_force z,
    { fea_dataframe := s.fea_dataframe
      model_parameters := s.model_parameters
      model_type := s.model_type
      model := s.model })

/-- Rebuild of an `ElectricalModel` attribute-by-attribute with the values
it holds after running any of the three evaluation bodies (none of which
assigns to `self`). -/
def ElectricalModel.after_eval (em : ElectricalModel) : ElectricalModel :=
  { name := em.name
    flux_model := em.flux_model
    dflux_model := em.dflux_model
    coil_resistance := em.coil_resistance
    load_model := em.load_model
    flux_gradient := em.flux_gradient
    precompute_gradient := em.precompute_gradient }

/-- State-passing `ElectricalModel.get_flux_gradient`. -/
def ElectricalModel.get_flux_gradient_s (em : ElectricalModel) (y : Fin 5 → ℚ) :
    PyFloat × ElectricalModel :=
  (em.get_flux_gradient y, em.after_eval)

/-- State-passing `ElectricalModel.get_emf`. -/
def ElectricalModel.get_emf_s (em : ElectricalModel) (mag_pos mag_vel : ℚ) :
    ℚ × ElectricalModel :=
  (em.get_emf mag_pos mag_vel, em.after_eval)

/-- State-passing `ElectricalModel.get_current`. -/
def ElectricalModel.get_current_s (em : ElectricalModel) (emf_oc : ℚ) :
    ℚ × ElectricalModel :=
  (em.get_current emf_oc, em.after_eval)

/-! Association-list model of Python `dict`s and of Python list indexing. -/

/-- First-match association lookup, `d[k]` returning `None` when absent
(`dict.get` / the guard side of `dict` access). -/
def lookupKV {K V : Type} [DecidableEq K] : List (K × V) → K → Option V
  | [], _ => none
  | kv :: rest, key => if kv.1 = key then some kv.2 else lookupKV rest key

/-- Python `dict` assignment `d[k] = v` on an insertion-ordered
association list: an existing key is updated in place (keeping its
position), a new key is appended. -/
def dictInsert {V : Type} (l : List (String × V)) (k : String) (v : V) :
    List (String × V) :=
  match lookupKV l k with
  | some _ => l.map fun p => if p.1 = k then (p.1, v) else p
  | none => l ++ [(k, v)]

/-- Python list indexing `l[i]` (as an `Option`, for stating lemmas). -/
def getAt? {α : Type} : List α → ℕ → Option α
  | [], _ => none
  | a :: _, 0 => some a
  | _ :: rest, n + 1 => getAt? rest n

/-- Python list assignment `l[i] = v` (all indices produced by the embedded
code are in range; out-of-range is a no-op here and unreachable there). -/
def setAt {α : Type} : List α → ℕ → α → List α
  | [], _, _ => []
  | _ :: rest, 0, v => v :: rest
  | a :: rest, n + 1, v => a :: setAt rest n v

/-! The Unified Model solver orchestration (`unified.py`).  The ODE
right-hand side, the three sub-models captured by the `high_level_models`
closure, and `scipy.integrate.solve_ivp` itself are external to the claims:
the integrator is abstracted as a function from the argument record the
repository builds to a solution object. -/

/-- A state vector `y`: the fixed-length vector handed to the governing
equations (5 components in the harvester family; kept general). -/
abbrev StateVec (d : ℕ) := Fin d → ℚ

/-- A post-processing pipeline function: receives one full state vector
(one time slice of the trajectory) and returns a state vector. -/
abbrev Pipeline (d : ℕ) := StateVec d → StateVec d

/-- The object returned by `scipy.integrate.solve_ivp`: a time grid
`psoln.t` and a trajectory matrix `psoln.y` with one row per state
dimension and one column per time sample. -/
structure OdeSolution (d n : ℕ) where
  t : Fin n → ℚ
  y : Fin d → Fin n → ℚ

/-- The arguments `UnifiedModel.solve` passes to
`scipy.integrate.solve_ivp` (besides the `fun=` closure): `t_span`, `y0`,
`max_step`, and the integration `method`, whose scipy default is
`"RK45"`. -/
structure SolveIvpArgs (d : ℕ) where
  t_span : ℚ × ℚ
  y0 : StateVec d
  max_step : ℚ
  method : String

/-- The argument record built by the call in `UnifiedModel.solve`:
`integrate.solve_ivp(fun=..., t_span=[t_start, t_end], y0=y0,
max_step=t_max_step)`.  The `method` parameter of `solve` is not forwarded
in that call, so the `method` field is scipy's default `"RK45"`. -/
def UnifiedModel.solve_ivp_args {d : ℕ} (t_start t_end : ℚ) (y0 : StateVec d)
    (t_max_step : ℚ) (method : String) : SolveIvpArgs d :=
  { t_span := (t_start, t_end)
    y0 := y0
    max_step := t_max_step
    method := "RK45" }

/-- The solver view of `UnifiedModel`: the insertion-ordered
`post_processing_pipeline` dict.  The sub-model attributes enter only
through the integrator closure, which is abstracted away. -/
structure UnifiedModel (d : ℕ) where
  post_processing_pipeline : List (String × Pipeline d)

/-- `UnifiedModel.set_post_processing_pipeline(pipeline, name)`:
`self.post_processing_pipeline[name] = pipeline`. -/
def UnifiedModel.set_post_processing_pipeline {d : ℕ} (m : UnifiedModel d)
    (pipeline : Pipeline d) (name : String) : UnifiedModel d :=
  { post_processing_pipeline :=
      dictInsert m.post_processing_pipeline name pipeline }

/-- One iteration of `_apply_pipeline`:
`np.array([pipeline(y) for y in self.raw_solution.T]).T` — the pipeline is
applied to every time slice (column) and the results are reassembled in
the row-per-dimension layout. -/
def pipelineStep {d n : ℕ} (p : Pipeline d) (M : Fin d → Fin n → ℚ) :
    Fin d → Fin n → ℚ :=
  fun i j => p (fun k => M k j) i

/-- `UnifiedModel._apply_pipeline`: the registered pipelines are executed
on the raw solution in dict (= insertion) order, each replacing
`self.raw_solution`. -/
def apply_pipeline {d n : ℕ} (ps : List (String × Pipeline d))
    (M : Fin d → Fin n → ℚ) : Fin d → Fin n → ℚ :=
  ps.foldl (fun acc p => pipelineStep p.2 acc) M

/-- `UnifiedModel.solve(t_start, t_end, y0, t_max_step=1e-5,
method='RK45')`: builds the `solve_ivp` call, stores `psoln.t` as
`self.time` and `psoln.y` as `self.raw_solution`, then runs
`self._apply_pipeline()`.  The returned record is the pair of attributes
(`time`, post-pipeline `raw_solution`) the call leaves on the model. -/
def UnifiedModel.solve {d n : ℕ} (m : UnifiedModel d)
    (integrator : SolveIvpArgs d → OdeSolution d n)
    (t_start t_end : ℚ) (y0 : StateVec d) (t_max_step : ℚ) (method : String) :
    OdeSolution d n :=
  let psoln := integrator (UnifiedModel.solve_ivp_args t_start t_end y0 t_max_step method)
  { t := psoln.t
    y := apply_pipeline m.post_processing_pipeline psoln.y }

/-! Persistence (`save_to_disk` / `load_from_disk`).  The filesystem is a
set of directories plus pickle files; `α` is the type of pickled attribute
values. -/

/-- A filesystem: existing directories and pickle files with contents. -/
structure FileSystem (α : Type) where
  dirs : List String
  files : List (String × α)

/-- `os.path.exists`. -/
def FileSystem.pathExists {α : Type} (fs : FileSystem α) (p : String) : Bool :=
  fs.dirs.contains p || (fs.files.map Prod.fst).contains p

/-- `os.path.isdir`. -/
def FileSystem.isDir {α : Type} (fs : FileSystem α) (p : String) : Bool :=
  fs.dirs.contains p

/-- The persistence view of a `UnifiedModel`: its `__dict__`, an
insertion-ordered mapping from attribute name to (pickled) value. -/
structure UnifiedModelAttrs (α : Type) where
  attrs : List (String × α)

/-- `UnifiedModel.save_to_disk(path)`: raises `FileExistsError` when the
path already exists, otherwise creates the directory and writes each
`__dict__` entry to `path + key + '.pkl'` (string concatenation, as in the
source). -/
def UnifiedModel.save_to_disk {α : Type} (fs : FileSystem α)
    (m : UnifiedModelAttrs α) (path : String) :
    Except PyErr (FileSystem α) :=
  if fs.pathExists path then Except.error PyErr.fileExistsError
  else
    Except.ok
      { dirs := path :: fs.dirs
        files := m.attrs.map (fun kv => (path ++ kv.1 ++ ".pkl", kv.2)) ++ fs.files }

/-- The constructor call semantics of `UnifiedModel.__init__(self)`: the
signature accepts no keyword arguments, so any supplied kwarg raises
`TypeError` (unexpected keyword argument).  On success the seven attributes
are initialised (to `None`/`{}`); their pickled images are abstracted as an
empty attribute bag because every claim-relevant path errors before
reading them. -/
def UnifiedModel.init_kwargs (α : Type) (kwargs : List String) :
    Except PyErr (UnifiedModelAttrs α) :=
  if kwargs.isEmpty then Except.ok { attrs := [] }
  else Except.error PyErr.typeError

/-- `f.split('.pkl')[0].split('/')[-1]` from `load_from_disk`. -/
def globKey (f : String) : String :=
  ((((f.splitOn ".pkl").headD "").splitOn "/").getLast?).getD ""

/-- `UnifiedModel.load_from_disk(path)`.  The source executes, in order:
`unified_model = UnifiedModel(name=None)` — a constructor call with the
keyword argument `name`, although `__init__(self)` accepts none — then the
`isdir` check (raising `FileNotFoundError`), then the glob/unpickle loop
populating `__dict__`. -/
def UnifiedModel.load_from_disk {α : Type} (fs : FileSystem α)
    (path : String) : Except PyErr (UnifiedModelAttrs α) :=
  match UnifiedModel.init_kwargs α ["name"] with
  | Except.error e => Except.error e
  | Except.ok um =>
      if fs.isDir path then
        Except.ok
          { attrs :=
              ((fs.files.filter (fun kv => kv.1.startsWith path)).foldl
                (fun acc kv => dictInsert acc (globKey kv.1) kv.2) um.attrs) }
      else Except.error PyErr.fileNotFoundError

/-! The flux database (`electrical_system/flux/utils.py`).  Parameter
values extracted from column headers have type `V`; stored flux curves
have type `W`. -/

/-- `FluxDatabase._create_index(key_list)`: `self.lut[k] = i` for
`i, k in enumerate(key_list)`; the counter argument makes the enumeration
explicit (the top-level call uses counter `0`). -/
def create_index : List String → ℕ → List (String × ℕ)
  | [], _ => []
  | k :: rest, i => (k, i) :: create_index rest (i + 1)

/-- The loop of `FluxDatabase._make_db_key`:
`for key in kwargs: db_key[self.lut[key]] = kwargs[key]` — an unknown
keyword raises `KeyError` at `self.lut[key]`. -/
def set_db_keys {V : Type} (lut : List (String × ℕ)) :
    List (String × V) → List (Option V) → Except PyErr (List (Option V))
  | [], acc => Except.ok acc
  | kv :: rest, acc =>
      match lookupKV lut kv.1 with
      | none => Except.error PyErr.keyError
      | some i => set_db_keys lut rest (setAt acc i (some kv.2))

/-- `FluxDatabase._make_db_key(**kwargs)`:
`db_key = [None]*len(self.lut)`, the assignment loop, then
`KeyError('Not all keys specified')` when a `None` slot remains. -/
def make_db_key {V : Type} [DecidableEq V] (lut : List (String × ℕ))
    (kwargs : List (String × V)) : Except PyErr (List (Option V)) :=
  match set_db_keys lut kwargs (List.replicate lut.length none) with
  | Except.error e => Except.error e
  | Except.ok db_key =>
      if none ∈ db_key then Except.error PyErr.keyError
      else Except.ok db_key

/-- The `FluxDatabase` state the claims touch: the immutable
header-derived index `lut` and the key-tuple-to-curve mapping
`database`. -/
structure FluxDatabase (V W : Type) where
  lut : List (String × ℕ)
  database : List (List (Option V) × W)

/-- `FluxDatabase.add(key_dict, value)`:
`db_key = self._make_db_key(**key_dict); self.database[db_key] = value` —
the database dict is written only after `_make_db_key` has returned. -/
def FluxDatabase.add {V W : Type} [DecidableEq V] (db : FluxDatabase V W)
    (key_dict : List (String × V)) (value : W) :
    Except PyErr (FluxDatabase V W) :=
  match make_db_key db.lut key_dict with
  | Except.error e => Except.error e
  | Except.ok db_key =>
      Except.ok { db with database := (db_key, value) :: db.database }

/-- `FluxDatabase.query(**kwargs)`:
`db_key = self._make_db_key(**kwargs); return self.database[db_key]` — a
key absent from the database dict raises `KeyError`. -/
def FluxDatabase.query {V W : Type} [DecidableEq V] (db : FluxDatabase V W)
    (kwargs : List (String × V)) : Except PyErr W :=
  match make_db_key db.lut kwargs with
  | Except.error e => Except.error e
  | Except.ok db_key =>
      match lookupKV db.database db_key with
      | some v => Except.ok v
      | none => Except.error PyErr.keyError

/-! Concrete instances used by the claim witnesses and counterexamples. -/

/-- The all-zero 5-component state vector. -/
def y_zero : Fin 5 → ℚ := fun _ => 0

/-- An electrical model whose interpolated flux model returns `nan`
everywhere (e.g. an interpolator queried outside its data domain), with
the precomputed-gradient mode off. -/
def em_nan : ElectricalModel :=
  { name := "em_nan"
    flux_model := fun _ => PyFloat.nan
    dflux_model := fun _ => 0
    coil_resistance := 1
    load_model := none
    flux_gradient := fun _ => PyFloat.finite 0
    precompute_gradient := false }

/-- An electrical model whose flux model hits `inf` at the right-hand
finite-difference probe point `deltaX`, so the central difference at `0`
is infinite. -/
def em_inf : ElectricalModel :=
  { name := "em_inf"
    flux_model := fun x => if x = deltaX then PyFloat.inf else PyFloat.finite 0
    dflux_model := fun _ => 0
    coil_resistance := 1
    load_model := none
    flux_gradient := fun _ => PyFloat.finite 0
    precompute_gradient := false }

/-- An electrical model with no load model installed. -/
def em_noload : ElectricalModel :=
  { name := "em_noload"
    flux_model := fun _ => PyFloat.finite 0
    dflux_model := fun _ => 0
    coil_resistance := 3
    load_model := none
    flux_gradient := fun _ => PyFloat.finite 0
    precompute_gradient := false }

/-- An electrical model with a 2-Ohm load and a 3-Ohm coil. -/
def em_loaded : ElectricalModel :=
  { name := "em_loaded"
    flux_model := fun _ => PyFloat.finite 0
    dflux_model := fun _ => 0
    coil_resistance := 3
    load_model := some { R := 2 }
    flux_gradient := fun _ => PyFloat.finite 0
    precompute_gradient := false }

/-- An empty filesystem. -/
def fs_empty : FileSystem ℚ := { dirs := [], files := [] }

/-- A filesystem already containing the directory `model/`. -/
def fs_model_dir : FileSystem ℚ := { dirs := ["model/"], files := [] }

/-- A one-attribute model instance to persist. -/
def m_one_attr : UnifiedModelAttrs ℚ := { attrs := [("trajectory", 5)] }

/-- The filesystem produced by saving `m_one_attr` under `model/` on an
empty filesystem. -/
def fs_after_save : FileSystem ℚ :=
  { dirs := ["model/"], files := [("model/trajectory.pkl", 5)] }

/-- A one-pipeline registry entry adding `1` to every state component. -/
def ps_inc : List (String × Pipeline 1) :=
  [("inc", fun v => fun i => v i + 1)]

/-- An integrator stub returning the constant-3 single-sample solution. -/
def integ_const : SolveIvpArgs 1 → OdeSolution 1 1 :=
  fun _ => { t := fun _ => 0, y := fun _ _ => 3 }

/-- A flux database indexed on parameters `a`, `b` with an empty mapping. -/
def db_ab : FluxDatabase ℕ ℕ :=
  { lut := create_index ["a", "b"] 0, database := [] }

/-- A flux database indexed on parameter `a` with an empty mapping. -/
def db_a : FluxDatabase ℕ ℕ :=
  { lut := create_index ["a"] 0, database := [] }

/-! Claim theorems. -/

/-- C1: the claim asserts that the `method` argument of
`UnifiedModel.solve` determines the integration scheme.  In the source the
`solve_ivp` call forwards `t_span = [t_start, t_end]`, `y0` and
`max_step = t_max_step` but not `method`, so the integrator always runs
with scipy's default `"RK45"` and the solve result is independent of the
`method` argument. -/
theorem solve_ignores_method_argument {d n : ℕ} (m : UnifiedModel d)
    (integrator : SolveIvpArgs d → OdeSolution d n)
    (t_start t_end : ℚ) (y0 : StateVec d) (t_max_step : ℚ) (method : String) :
    UnifiedModel.solve_ivp_args t_start t_end y0 t_max_step method =
      { t_span := (t_start, t_end)
        y0 := y0
        max_step := t_max_step
        method := "RK45" } ∧
    m.solve integrator t_start t_end y0 t_max_step method =
      m.solve integrator t_start t_end y0 t_max_step "RK45" :=
  ⟨rfl, rfl⟩

/-- C4: `get_current` returns `0` when no load model is installed, and the
voltage-divider current `emf * R_load / (R_load + R_coil) / R_load` when a
load with resistance `R_load` is installed. -/
theorem get_current_spec (em : ElectricalModel) (emf_oc : ℚ) :
    (em.load_model = none → em.get_current emf_oc = 0) ∧
    (∀ load, em.load_model = some load →
      em.get_current emf_oc =
        emf_oc * load.R / (load.R + em.coil_resistance) / load.R) := by
  constructor
  · intro h
    simp [ElectricalModel.get_current, h]
  · intro load h
    simp [ElectricalModel.get_current, h]

/-- Witness for C4 at concrete inputs: no load gives `0`; a 2-Ohm load
with a 3-Ohm coil gives the divider current. -/
theorem get_current_spec_witness :
    em_noload.get_current 7 = 0 ∧
    em_loaded.get_current 7 = 7 * 2 / (2 + 3) / 2 := by
  constructor
  · exact (get_current_spec em_noload 7).1 rfl
  · exact (get_current_spec em_loaded 7).2 { R := 2 } rfl

/-- C9: none of the evaluation calls mutates its model object: in each
state-passing translation the post-call object equals the pre-call
object. -/
theorem evaluation_does_not_mutate_models :
    (∀ (dmp : ConstantDamper) (v : ℚ), (dmp.get_force_s v).2 = dmp) ∧
    (∀ (s : MagneticSpring) (z : ℚ), (s.get_force_s z).2 = s) ∧
    (∀ (em : ElectricalModel) (y : Fin 5 → ℚ),
      (em.get_flux_gradient_s y).2 = em) ∧
    (∀ (em : ElectricalModel) (p v : ℚ), (em.get_emf_s p v).2 = em) ∧
    (∀ (em : ElectricalModel) (e : ℚ), (em.get_current_s e).2 = em) :=
  ⟨fun _ _ => rfl, fun _ _ => rfl, fun _ _ => rfl, fun _ _ _ => rfl,
    fun _ _ => rfl⟩

/-- C3 counterexample: at a model whose flux interpolator returns `nan`,
the central finite-difference gradient is non-finite (NaN), yet
`get_flux_gradient` returns `nan`, not `0.0` — the `np.isinf` guard does
not catch NaN. -/
theorem get_flux_gradient_nan_counterexample :
    (central_difference em_nan.flux_model (y_zero 2 - y_zero 0)).isNan = true ∧
    em_nan.precompute_gradient = false ∧
    em_nan.get_flux_gradient y_zero = PyFloat.nan ∧
    PyFloat.nan ≠ PyFloat.finite 0 :=
  ⟨rfl, rfl, rfl, by decide⟩

/-- C3 amended: `get_flux_gradient` evaluates at `x3 - x1`; with the
precomputed mode on it returns the cached derivative there; otherwise it
returns the central finite difference of the flux model with fixed step
`deltaX`, is never `±inf` (an infinite finite-difference gradient is
replaced by exactly `0.0`), while a NaN finite-difference gradient is
returned as NaN. -/
theorem get_flux_gradient_amended (em : ElectricalModel) (y : Fin 5 → ℚ) :
    (em.precompute_gradient = true →
      em.get_flux_gradient y = em.flux_gradient (y 2 - y 0)) ∧
    (em.precompute_gradient = false →
      (em.get_flux_gradient y).isInf = false ∧
      ((central_difference em.flux_model (y 2 - y 0)).isInf = true →
        em.get_flux_gradient y = PyFloat.finite 0) ∧
      ((central_difference em.flux_model (y 2 - y 0)).isInf = false →
        em.get_flux_gradient y = central_difference em.flux_model (y 2 - y 0))) := by
  constructor
  · intro h
    simp [ElectricalModel.get_flux_gradient, h]
  · intro h
    have hg : em.get_flux_gradient y = fd_gradient em.flux_model (y 2 - y 0) := by
      simp [ElectricalModel.get_flux_gradient, h]
    cases hinf : (central_difference em.flux_model (y 2 - y 0)).isInf
    · have hval : fd_gradient em.flux_model (y 2 - y 0) =
          central_difference em.flux_model (y 2 - y 0) := by
        simp [fd_gradient, hinf]
      refine ⟨?_, ?_, ?_⟩
      · rw [hg, hval, hinf]
      · intro hc
        simp [hinf] at hc
      · intro _
        rw [hg, hval]
    · have hval : fd_gradient em.flux_model (y 2 - y 0) = PyFloat.finite 0 := by
        simp [fd_gradient, hinf]
      refine ⟨?_, ?_, ?_⟩
      · rw [hg, hval]
        rfl
      · intro _
        rw [hg, hval]
      · intro hc
        simp [hinf] at hc

/-- Witness for C3 amended at a concrete model whose central difference is
`inf` at the origin: the guard fires and the result is exactly `0.0`. -/
theorem get_flux_gradient_amended_witness :
    (central_difference em_inf.flux_model (y_zero 2 - y_zero 0)).isInf = true ∧
    em_inf.get_flux_gradient y_zero = PyFloat.finite 0 := by
  have hplus : em_inf.flux_model (y_zero 2 - y_zero 0 + deltaX) = PyFloat.inf := by
    have : y_zero 2 - y_zero 0 + deltaX = deltaX := by
      simp [y_zero]
    simp [em_inf, this]
  have hminus : em_inf.flux_model (y_zero 2 - y_zero 0 - deltaX) =
      PyFloat.finite 0 := by
    have : y_zero 2 - y_zero 0 - deltaX ≠ deltaX := by
      simp [y_zero, deltaX]
      norm_num
    simp [em_inf, this]
  have hcd : (central_difference em_inf.flux_model (y_zero 2 - y_zero 0)).isInf
      = true := by
    simp [central_difference, hplus, hminus, PyFloat.sub, PyFloat.divPos,
      PyFloat.isInf]
  exact ⟨hcd, ((get_flux_gradient_amended em_inf y_zero).2 rfl).2.1 hcd⟩

/-- Helper: `load_from_disk` always raises `TypeError`, for any filesystem
and path — its first statement is `UnifiedModel(name=None)`, a keyword
call into `__init__(self)`, which accepts no keyword arguments. -/
theorem load_from_disk_eq_type_error {α : Type} (fs : FileSystem α)
    (path : String) :
    UnifiedModel.load_from_disk fs path = Except.error PyErr.typeError := rfl

/-- C2: the save-then-load round trip fails: after any successful
`save_to_disk`, `load_from_disk` on the saved path raises `TypeError`
(from the `UnifiedModel(name=None)` constructor call) instead of
returning a re-hydrated model. -/
theorem save_then_load_round_trip_fails {α : Type} (fs : FileSystem α)
    (m : UnifiedModelAttrs α) (path : String) (fsA : FileSystem α)
    (hsave : UnifiedModel.save_to_disk fs m path = Except.ok fsA) :
    UnifiedModel.load_from_disk fsA path = Except.error PyErr.typeError ∧
    ∀ mA : UnifiedModelAttrs α,
      UnifiedModel.load_from_disk fsA path ≠ Except.ok mA := by
  refine ⟨load_from_disk_eq_type_error fsA path, ?_⟩
  intro mA hok
  rw [load_from_disk_eq_type_error fsA path] at hok
  exact Except.noConfusion hok

/-- Witness for C2: saving a one-attribute model on an empty filesystem
succeeds, and loading from the written path then fails with
`TypeError`. -/
theorem save_then_load_round_trip_fails_witness :
    UnifiedModel.save_to_disk fs_empty m_one_attr "model/" =
      Except.ok fs_after_save ∧
    UnifiedModel.load_from_disk fs_after_save "model/" =
      Except.error PyErr.typeError := by
  have hsave : UnifiedModel.save_to_disk fs_empty m_one_attr "model/" =
      Except.ok fs_after_save := rfl
  exact ⟨hsave,
    (save_then_load_round_trip_fails fs_empty m_one_attr "model/"
      fs_after_save hsave).1⟩

/-- C8: `save_to_disk` on an existing path raises `FileExistsError`; but
`load_from_disk` never reaches its `FileNotFoundError` check — it raises
`TypeError` on every input (including missing directories), since the
`UnifiedModel(name=None)` constructor call precedes the `isdir` check. -/
theorem persistence_error_kinds {α : Type} (fs : FileSystem α)
    (m : UnifiedModelAttrs α) (path : String)
    (hex : fs.pathExists path = true) :
    UnifiedModel.save_to_disk fs m path = Except.error PyErr.fileExistsError ∧
    (∀ q : String, UnifiedModel.load_from_disk fs q =
      Except.error PyErr.typeError) ∧
    (∀ q : String, UnifiedModel.load_from_disk fs q ≠
      Except.error PyErr.fileNotFoundError) := by
  refine ⟨?_, fun q => load_from_disk_eq_type_error fs q, ?_⟩
  · simp [UnifiedModel.save_to_disk, hex]
  · intro q hq
    rw [load_from_disk_eq_type_error fs q] at hq
    have := Except.error.inj hq
    exact PyErr.noConfusion this

/-- Witness for C8 on a filesystem already holding the directory
`model/`. -/
theorem persistence_error_kinds_witness :
    UnifiedModel.save_to_disk fs_model_dir m_one_attr "model/" =
      Except.error PyErr.fileExistsError ∧
    UnifiedModel.load_from_disk fs_model_dir "missing/" =
      Except.error PyErr.typeError := by
  have h := persistence_error_kinds fs_model_dir m_one_attr "model/" rfl
  exact ⟨h.1, h.2.1 "missing/"⟩

/-- Helper: association lookup misses keys that are absent. -/
theorem lookupKV_eq_none {K V : Type} [DecidableEq K]
    (l : List (K × V)) (k : K) (h : k ∉ l.map Prod.fst) :
    lookupKV l k = none := by
  induction l with
  | nil => rfl
  | cons kv rest ih =>
      simp only [List.map_cons, List.mem_cons] at h
      push_neg at h
      have hne : kv.1 ≠ k := fun he => h.1 he.symm
      simp only [lookupKV, if_neg hne]
      exact ih h.2

/-- Helper: folding dict assignments with pairwise-fresh keys appends the
entries in order. -/
theorem dictInsert_foldl_append {V : Type} :
    ∀ (ps : List (String × V)) (acc : List (String × V)),
      (∀ x ∈ ps.map Prod.fst, x ∉ acc.map Prod.fst) →
      (ps.map Prod.fst).Nodup →
      ps.foldl (fun l nf => dictInsert l nf.1 nf.2) acc = acc ++ ps := by
  intro ps
  induction ps with
  | nil => intro acc _ _; simp
  | cons kv rest ih =>
      intro acc hfresh hnodup
      simp only [List.map_cons] at hfresh hnodup
      have hk : kv.1 ∉ acc.map Prod.fst := hfresh kv.1 (List.mem_cons_self kv.1 _)
      have hstep : dictInsert acc kv.1 kv.2 = acc ++ [(kv.1, kv.2)] := by
        simp [dictInsert, lookupKV_eq_none acc kv.1 hk]
      rcases List.nodup_cons.mp hnodup with ⟨hkni, hrestnd⟩
      simp only [List.foldl_cons, hstep]
      rw [ih (acc ++ [(kv.1, kv.2)]) ?_ hrestnd]
      · simp
      · intro x hx
        simp only [List.map_append, List.mem_append, List.map_cons,
          List.map_nil, List.mem_singleton]
        push_neg
        refine ⟨hfresh x (List.mem_cons_of_mem kv.1 hx), ?_⟩
        intro hxk
        exact hkni (hxk ▸ hx)

/-- Helper: the model built by repeated `set_post_processing_pipeline`
carries the folded dict as its registry. -/
theorem foldl_set_pipeline_registry {d : ℕ} :
    ∀ (ps : List (String × Pipeline d)) (acc : List (String × Pipeline d)),
      (ps.foldl
        (fun (m : UnifiedModel d) (nf : String × Pipeline d) =>
          m.set_post_processing_pipeline nf.2 nf.1)
        ⟨acc⟩).post_processing_pipeline =
      ps.foldl (fun l nf => dictInsert l nf.1 nf.2) acc := by
  intro ps
  induction ps with
  | nil => intro acc; rfl
  | cons kv rest ih => intro acc; exact ih (dictInsert acc kv.1 kv.2)

/-- Helper: each time slice (column) of the post-pipeline trajectory is
the fold of the pipeline functions, in list order, over the corresponding
raw column. -/
theorem apply_pipeline_col {d n : ℕ} :
    ∀ (ps : List (String × Pipeline d)) (M : Fin d → Fin n → ℚ)
      (j : Fin n) (k : Fin d),
      apply_pipeline ps M k j =
        (ps.map Prod.snd).foldl (fun v p => p v) (fun i => M i j) k := by
  intro ps
  induction ps with
  | nil => intro M j k; rfl
  | cons kv rest ih =>
      intro M j k
      have h1 : apply_pipeline (kv :: rest) M
          = apply_pipeline rest (pipelineStep kv.2 M) := rfl
      have h2 : (fun i => pipelineStep kv.2 M i j) = kv.2 (fun i => M i j) := rfl
      rw [h1, ih (pipelineStep kv.2 M) j k]
      simp only [List.map_cons, List.foldl_cons, h2]

/-- C5: for a model whose pipelines were registered under distinct names
via `set_post_processing_pipeline`, every time slice (column) of the
trajectory stored by `solve` equals the registered pipeline functions
applied, in insertion order, to the corresponding time slice of the raw
integrator output. -/
theorem solve_postprocesses_each_time_slice {d n : ℕ}
    (ps : List (String × Pipeline d)) (hnodup : (ps.map Prod.fst).Nodup)
    (integrator : SolveIvpArgs d → OdeSolution d n)
    (t_start t_end : ℚ) (y0 : StateVec d) (t_max_step : ℚ) (method : String)
    (j : Fin n) (k : Fin d) :
    ((ps.foldl
        (fun (m : UnifiedModel d) (nf : String × Pipeline d) =>
          m.set_post_processing_pipeline nf.2 nf.1)
        ⟨[]⟩).solve
      integrator t_start t_end y0 t_max_step method).y k j =
    (ps.map Prod.snd).foldl (fun v p => p v)
      (fun i =>
        (integrator
          (UnifiedModel.solve_ivp_args t_start t_end y0 t_max_step method)).y
          i j) k := by
  have hreg :
      (ps.foldl
        (fun (m : UnifiedModel d) (nf : String × Pipeline d) =>
          m.set_post_processing_pipeline nf.2 nf.1)
        ⟨[]⟩).post_processing_pipeline = ps := by
    rw [foldl_set_pipeline_registry ps []]
    have := dictInsert_foldl_append ps [] (by simp) hnodup
    simpa using this
  show apply_pipeline
      (ps.foldl
        (fun (m : UnifiedModel d) (nf : String × Pipeline d) =>
          m.set_post_processing_pipeline nf.2 nf.1)
        ⟨[]⟩).post_processing_pipeline
      (integrator
        (UnifiedModel.solve_ivp_args t_start t_end y0 t_max_step method)).y k j = _
  rw [hreg]
  exact apply_pipeline_col ps _ j k

/-- Witness for C5: one registered pipeline that increments every state
component, on a constant one-point integrator output. -/
theorem solve_postprocesses_each_time_slice_witness :
    (ps_inc.map Prod.fst).Nodup ∧
    ((ps_inc.foldl
        (fun (m : UnifiedModel 1) (nf : String × Pipeline 1) =>
          m.set_post_processing_pipeline nf.2 nf.1)
        ⟨[]⟩).solve
      integ_const 0 1 (fun _ => 0) 1 "RK45").y 0 0 =
    (ps_inc.map Prod.snd).foldl (fun v p => p v)
      (fun i => (integ_const
        (UnifiedModel.solve_ivp_args 0 1 (fun _ => (0 : ℚ)) 1 "RK45")).y i 0) 0 := by
  constructor
  · decide
  · exact solve_postprocesses_each_time_slice ps_inc (by decide)
      integ_const 0 1 (fun _ => 0) 1 "RK45" 0 0

/-- Helper: `setAt` preserves length. -/
theorem length_setAt {α : Type} :
    ∀ (l : List α) (i : ℕ) (v : α), (setAt l i v).length = l.length := by
  intro l
  induction l with
  | nil => intro i v; rfl
  | cons a rest ih =>
      intro i v
      cases i with
      | zero => rfl
      | succ i => simp [setAt, ih i v]

/-- Helper: reading back an in-range `setAt` index. -/
theorem getAt_setAt_self {α : Type} :
    ∀ (l : List α) (i : ℕ) (v : α), i < l.length →
      getAt? (setAt l i v) i = some v := by
  intro l
  induction l with
  | nil => intro i v h; simp at h
  | cons a rest ih =>
      intro i v h
      cases i with
      | zero => rfl
      | succ i =>
          simp only [List.length_cons, Nat.succ_lt_succ_iff] at h
          exact ih i v h

/-- Helper: `setAt` leaves other indices alone. -/
theorem getAt_setAt_ne {α : Type} :
    ∀ (l : List α) (i j : ℕ) (v : α), i ≠ j →
      getAt? (setAt l i v) j = getAt? l j := by
  intro l
  induction l with
  | nil => intro i j v _; cases i <;> rfl
  | cons a rest ih =>
      intro i j v hne
      cases i with
      | zero =>
          cases j with
          | zero => exact absurd rfl hne
          | succ j => rfl
      | succ i =>
          cases j with
          | zero => rfl
          | succ j => exact ih i j v (fun he => hne (by rw [he]))

/-- Helper: an index after `setAt` holds the old entry or the new value. -/
theorem getAt_setAt_or {α : Type} (l : List α) (i j : ℕ) (v : α) :
    getAt? (setAt l i v) j = getAt? l j ∨ getAt? (setAt l i v) j = some v := by
  by_cases hij : i = j
  · by_cases hlt : i < l.length
    · right
      rw [← hij]
      exact getAt_setAt_self l i v hlt
    · left
      rw [← hij]
      have : ∀ (l : List α) (i : ℕ) (v : α), ¬ i < l.length → setAt l i v = l := by
        intro l
        induction l with
        | nil => intro i v _; rfl
        | cons a rest ih =>
            intro i v h
            cases i with
            | zero => exact absurd (by simp) h
            | succ i =>
                simp only [List.length_cons, Nat.succ_lt_succ_iff] at h
                simp [setAt, ih i v h]
      rw [this l i v hlt]
  · left
    exact getAt_setAt_ne l i j v hij

/-- Helper: in-range reads of a `replicate`-of-`none` buffer. -/
theorem getAt_replicate_none {V : Type} :
    ∀ (n j : ℕ), j < n →
      getAt? (List.replicate n (none : Option V)) j = some none := by
  intro n
  induction n with
  | zero => intro j h; simp at h
  | succ n ih =>
      intro j h
      cases j with
      | zero => rfl
      | succ j => exact ih j (Nat.succ_lt_succ_iff.mp h)

/-- Helper: a successful indexed read is a membership. -/
theorem mem_of_getAt {α : Type} :
    ∀ (l : List α) (j : ℕ) (a : α), getAt? l j = some a → a ∈ l := by
  intro l
  induction l with
  | nil => intro j a h; cases j <;> exact Option.noConfusion h
  | cons b rest ih =>
      intro j a h
      cases j with
      | zero => exact (Option.some.inj h) ▸ List.mem_cons_self b rest
      | succ j => exact List.mem_cons_of_mem b (ih j a h)

/-- Helper: every member sits at some index. -/
theorem getAt_of_mem {α : Type} :
    ∀ (l : List α) (a : α), a ∈ l → ∃ j, getAt? l j = some a := by
  intro l
  induction l with
  | nil => intro a h; simp at h
  | cons b rest ih =>
      intro a h
      rcases List.mem_cons.mp h with h | h
      · exact ⟨0, by rw [h]; rfl⟩
      · obtain ⟨j, hj⟩ := ih a h
        exact ⟨j + 1, hj⟩

/-- Helper: a successful indexed read is in range. -/
theorem getAt_lt_length {α : Type} :
    ∀ (l : List α) (j : ℕ) (a : α), getAt? l j = some a → j < l.length := by
  intro l
  induction l with
  | nil => intro j a h; cases j <;> exact Option.noConfusion h
  | cons b rest ih =>
      intro j a h
      cases j with
      | zero => simp
      | succ j => exact Nat.succ_lt_succ (ih j a h)

/-- Helper: in-range indices hold some entry. -/
theorem getAt_exists_of_lt {α : Type} :
    ∀ (l : List α) (j : ℕ), j < l.length → ∃ a, getAt? l j = some a := by
  intro l
  induction l with
  | nil => intro j h; simp at h
  | cons b rest ih =>
      intro j h
      cases j with
      | zero => exact ⟨b, rfl⟩
      | succ j =>
          simp only [List.length_cons, Nat.succ_lt_succ_iff] at h
          exact ih j h

/-- Helper: `create_index` has one entry per key. -/
theorem length_create_index :
    ∀ (ks : List String) (i : ℕ), (create_index ks i).length = ks.length := by
  intro ks
  induction ks with
  | nil => intro i; rfl
  | cons k rest ih => intro i; simp [create_index, ih (i + 1)]

/-- Helper: the index lookup misses exactly the unknown parameter
names. -/
theorem lookup_create_index_none_iff :
    ∀ (ks : List String) (i : ℕ) (k : String),
      lookupKV (create_index ks i) k = none ↔ k ∉ ks := by
  intro ks
  induction ks with
  | nil => intro i k; simp [create_index, lookupKV]
  | cons k0 rest ih =>
      intro i k
      simp only [create_index, lookupKV, List.mem_cons]
      by_cases hk : k0 = k
      · simp [hk]
      · simp only [if_neg hk, ih (i + 1) k]
        constructor
        · intro h hmem
          rcases hmem with hmem | hmem
          · exact hk hmem.symm
          · exact h hmem
        · intro h hmem
          exact h (Or.inr hmem)

/-- Helper: a successful index lookup names a position in the key
list. -/
theorem lookup_create_index_some :
    ∀ (ks : List String) (i : ℕ) (k : String) (m : ℕ),
      lookupKV (create_index ks i) k = some m →
      ∃ j, m = i + j ∧ getAt? ks j = some k := by
  intro ks
  induction ks with
  | nil => intro i k m h; exact Option.noConfusion h
  | cons k0 rest ih =>
      intro i k m h
      simp only [create_index, lookupKV] at h
      by_cases hk : k0 = k
      · rw [if_pos hk] at h
        refine ⟨0, (Option.some.inj h).symm ▸ (Nat.add_zero i).symm, ?_⟩
        rw [hk]
        rfl
      · rw [if_neg hk] at h
        obtain ⟨j, hm, hget⟩ := ih (i + 1) k m h
        exact ⟨j + 1, by omega, hget⟩

/-- Helper: with distinct keys, the index lookup of the `j`-th key returns
offset plus `j`. -/
theorem lookup_create_index_of_getAt :
    ∀ (ks : List String), ks.Nodup →
      ∀ (j : ℕ) (k : String) (i : ℕ), getAt? ks j = some k →
        lookupKV (create_index ks i) k = some (i + j) := by
  intro ks
  induction ks with
  | nil => intro _ j k i h; cases j <;> exact Option.noConfusion h
  | cons k0 rest ih =>
      intro hnd j k i h
      rcases List.nodup_cons.mp hnd with ⟨hk0, hndrest⟩
      cases j with
      | zero =>
          have : k0 = k := Option.some.inj h
          simp [create_index, lookupKV, this]
      | succ j =>
          have hkmem : k ∈ rest := mem_of_getAt rest j k h
          have hne : k0 ≠ k := fun he => hk0 (he ▸ hkmem)
          simp only [create_index, lookupKV, if_neg hne]
          rw [ih hndrest j k (i + 1) h]
          congr 1
          omega

/-- Helper: the `_make_db_key` assignment loop preserves the buffer
length. -/
theorem set_db_keys_length {V : Type} (lut : List (String × ℕ)) :
    ∀ (kwargs : List (String × V)) (acc out : List (Option V)),
      set_db_keys lut kwargs acc = Except.ok out → out.length = acc.length := by
  intro kwargs
  induction kwargs with
  | nil =>
      intro acc out h
      simp only [set_db_keys] at h
      rw [← Except.ok.inj h]
  | cons kv rest ih =>
      intro acc out h
      cases hl : lookupKV lut kv.1 with
      | none => simp [set_db_keys, hl] at h
      | some i =>
          simp only [set_db_keys, hl] at h
          rw [ih (setAt acc i (some kv.2)) out h]
          exact length_setAt acc i (some kv.2)

/-- Helper: the assignment loop succeeds when every keyword is a known
parameter name. -/
theorem set_db_keys_ok {V : Type} (lut : List (String × ℕ)) :
    ∀ (kwargs : List (String × V)) (acc : List (Option V)),
      (∀ p ∈ kwargs, lookupKV lut p.1 ≠ none) →
      ∃ out, set_db_keys lut kwargs acc = Except.ok out := by
  intro kwargs
  induction kwargs with
  | nil => intro acc _; exact ⟨acc, rfl⟩
  | cons kv rest ih =>
      intro acc hknown
      cases hl : lookupKV lut kv.1 with
      | none => exact absurd hl (hknown kv (List.mem_cons_self kv rest))
      | some i =>
          obtain ⟨out, hout⟩ :=
            ih (setAt acc i (some kv.2))
              (fun p hp => hknown p (List.mem_cons_of_mem kv hp))
          exact ⟨out, by simp [set_db_keys, hl, hout]⟩

/-- Helper: after the assignment loop each slot is untouched or holds an
assigned value. -/
theorem set_db_keys_get_or {V : Type} (lut : List (String × ℕ)) :
    ∀ (kwargs : List (String × V)) (acc out : List (Option V)) (j : ℕ),
      set_db_keys lut kwargs acc = Except.ok out →
      getAt? out j = getAt? acc j ∨ ∃ w, getAt? out j = some (some w) := by
  intro kwargs
  induction kwargs with
  | nil =>
      intro acc out j h
      simp only [set_db_keys] at h
      rw [← Except.ok.inj h]
      exact Or.inl rfl
  | cons kv rest ih =>
      intro acc out j h
      cases hl : lookupKV lut kv.1 with
      | none => simp [set_db_keys, hl] at h
      | some i =>
          simp only [set_db_keys, hl] at h
          rcases ih (setAt acc i (some kv.2)) out j h with hcase | hcase
          · rcases getAt_setAt_or acc i j (some kv.2) with hs | hs
            · exact Or.inl (hcase.trans hs)
            · exact Or.inr ⟨kv.2, hcase.trans hs⟩
          · exact Or.inr hcase

/-- Helper: a slot targeted by some keyword ends up assigned. -/
theorem set_db_keys_covers {V : Type} (lut : List (String × ℕ)) :
    ∀ (kwargs : List (String × V)) (acc out : List (Option V))
      (k0 : String) (v0 : V) (j : ℕ),
      set_db_keys lut kwargs acc = Except.ok out →
      (k0, v0) ∈ kwargs → lookupKV lut k0 = some j → j < acc.length →
      ∃ w, getAt? out j = some (some w) := by
  intro kwargs
  induction kwargs with
  | nil => intro acc out k0 v0 j _ hmem _ _; simp at hmem
  | cons kv rest ih =>
      intro acc out k0 v0 j h hmem hlk hlt
      cases hl : lookupKV lut kv.1 with
      | none => simp [set_db_keys, hl] at h
      | some i =>
          simp only [set_db_keys, hl] at h
          rcases List.mem_cons.mp hmem with heq | hmemrest
          · have hk0 : kv.1 = k0 := by rw [← heq]
            have hij : i = j := by
              rw [hk0] at hl
              rw [hl] at hlk
              exact Option.some.inj hlk
            rcases set_db_keys_get_or lut rest (setAt acc i (some kv.2)) out j h
              with hcase | hcase
            · refine ⟨kv.2, ?_⟩
              rw [hcase]
              subst hij
              exact getAt_setAt_self acc i (some kv.2) hlt
            · exact hcase
          · refine ih (setAt acc i (some kv.2)) out k0 v0 j h hmemrest hlk ?_
            rw [length_setAt acc i (some kv.2)]
            exact hlt

/-- Helper: a slot no keyword targets keeps its initial contents. -/
theorem set_db_keys_untouched {V : Type} (lut : List (String × ℕ)) :
    ∀ (kwargs : List (String × V)) (acc out : List (Option V)) (j : ℕ),
      set_db_keys lut kwargs acc = Except.ok out →
      (∀ p ∈ kwargs, lookupKV lut p.1 ≠ some j) →
      getAt? out j = getAt? acc j := by
  intro kwargs
  induction kwargs with
  | nil =>
      intro acc out j h _
      simp only [set_db_keys] at h
      rw [← Except.ok.inj h]
  | cons kv rest ih =>
      intro acc out j h hmiss
      cases hl : lookupKV lut kv.1 with
      | none => simp [set_db_keys, hl] at h
      | some i =>
          simp only [set_db_keys, hl] at h
          have hij : i ≠ j := fun he =>
            hmiss kv (List.mem_cons_self kv rest) (he ▸ hl)
          rw [ih (setAt acc i (some kv.2)) out j h
            (fun p hp => hmiss p (List.mem_cons_of_mem kv hp))]
          exact getAt_setAt_ne acc i j (some kv.2) hij

/-- Helper: an unknown keyword name makes the assignment loop raise
`KeyError` (at the `self.lut[key]` access). -/
theorem set_db_keys_error_of_unknown {V : Type} (lut : List (String × ℕ)) :
    ∀ (kwargs : List (String × V)) (acc : List (Option V)),
      (∃ p ∈ kwargs, lookupKV lut p.1 = none) →
      set_db_keys lut kwargs acc = Except.error PyErr.keyError := by
  intro kwargs
  induction kwargs with
  | nil => intro acc h; simp at h
  | cons kv rest ih =>
      intro acc h
      cases hl : lookupKV lut kv.1 with
      | none => simp [set_db_keys, hl]
      | some i =>
          obtain ⟨p, hp, hpnone⟩ := h
          rcases List.mem_cons.mp hp with heq | hmemrest
          · rw [heq] at hpnone
            rw [hpnone] at hl
            exact Option.noConfusion hl
          · simp only [set_db_keys, hl]
            exact ih (setAt acc i (some kv.2)) ⟨p, hmemrest, hpnone⟩

/-- Helper: with an index built from distinct parameter names, a keyword
set naming exactly those parameters makes `_make_db_key` succeed. -/
theorem make_db_key_ok_of_exact {V : Type} [DecidableEq V]
    (ks : List String) (kwargs : List (String × V))
    (hnodup : ks.Nodup) (hexact : List.Perm (kwargs.map Prod.fst) ks) :
    ∃ out, make_db_key (create_index ks 0) kwargs = Except.ok out := by
  have hknown : ∀ p ∈ kwargs, lookupKV (create_index ks 0) p.1 ≠ none := by
    intro p hp hlk
    have hmem : p.1 ∈ ks :=
      hexact.mem_iff.mp (List.mem_map.mpr ⟨p, hp, rfl⟩)
    exact ((lookup_create_index_none_iff ks 0 p.1).mp hlk) hmem
  obtain ⟨out, hout⟩ :=
    set_db_keys_ok (create_index ks 0) kwargs
      (List.replicate (create_index ks 0).length none) hknown
  have hlen : out.length = ks.length := by
    rw [set_db_keys_length (create_index ks 0) kwargs _ out hout,
      List.length_replicate, length_create_index]
  have hnone : none ∉ out := by
    intro hmem
    obtain ⟨j, hj⟩ := getAt_of_mem out none hmem
    have hjlt : j < ks.length := by
      rw [← hlen]
      exact getAt_lt_length out j none hj
    obtain ⟨kj, hkj⟩ := getAt_exists_of_lt ks j hjlt
    have hkjmem : kj ∈ kwargs.map Prod.fst :=
      hexact.mem_iff.mpr (mem_of_getAt ks j kj hkj)
    obtain ⟨p, hp, hpk⟩ := List.mem_map.mp hkjmem
    have hlkp : lookupKV (create_index ks 0) p.1 = some j := by
      rw [hpk]
      have := lookup_create_index_of_getAt ks hnodup j kj 0 hkj
      simpa using this
    have hjacc : j < (List.replicate (create_index ks 0).length
        (none : Option V)).length := by
      rw [List.length_replicate, length_create_index]
      exact hjlt
    obtain ⟨w, hw⟩ :=
      set_db_keys_covers (create_index ks 0) kwargs _ out p.1 p.2 j hout
        (by simpa using hp) hlkp hjacc
    rw [hj] at hw
    exact Option.noConfusion (Option.some.inj hw)
  refine ⟨out, ?_⟩
  simp [make_db_key, hout, hnone]

/-- Helper: with an index built from distinct parameter names, a
distinct-keyed keyword set that is not exactly the parameter-name set
makes `_make_db_key` raise `KeyError`. -/
theorem make_db_key_error_of_not_exact {V : Type} [DecidableEq V]
    (ks : List String) (kwargs : List (String × V))
    (hnodupK : ks.Nodup) (hnodupA : (kwargs.map Prod.fst).Nodup)
    (hne : ¬ List.Perm (kwargs.map Prod.fst) ks) :
    make_db_key (create_index ks 0) kwargs = Except.error PyErr.keyError := by
  by_cases hA : ∀ x ∈ kwargs.map Prod.fst, x ∈ ks
  · have hB : ∃ kstar ∈ ks, kstar ∉ kwargs.map Prod.fst := by
      by_contra hB
      push_neg at hB
      exact hne ((List.perm_ext_iff_of_nodup hnodupA hnodupK).mpr
        (fun a => ⟨fun ha => hA a ha, fun ha => hB a ha⟩))
    obtain ⟨kstar, hkstar, hkstarA⟩ := hB
    obtain ⟨jstar, hjstar⟩ := getAt_of_mem ks kstar hkstar
    have hknown : ∀ p ∈ kwargs, lookupKV (create_index ks 0) p.1 ≠ none := by
      intro p hp hlk
      exact ((lookup_create_index_none_iff ks 0 p.1).mp hlk)
        (hA p.1 (List.mem_map.mpr ⟨p, hp, rfl⟩))
    obtain ⟨out, hout⟩ :=
      set_db_keys_ok (create_index ks 0) kwargs
        (List.replicate (create_index ks 0).length none) hknown
    have hmiss : ∀ p ∈ kwargs,
        lookupKV (create_index ks 0) p.1 ≠ some jstar := by
      intro p hp hlk
      obtain ⟨j, hj0, hjget⟩ := lookup_create_index_some ks 0 p.1 jstar hlk
      have hjj : j = jstar := by omega
      rw [hjj, hjstar] at hjget
      have : kstar = p.1 := Option.some.inj hjget
      exact hkstarA (this ▸ List.mem_map.mpr ⟨p, hp, rfl⟩)
    have hslot : getAt? out jstar = some none := by
      rw [set_db_keys_untouched (create_index ks 0) kwargs _ out jstar hout hmiss]
      exact getAt_replicate_none (create_index ks 0).length jstar
        (by
          rw [length_create_index]
          exact getAt_lt_length ks jstar kstar hjstar)
    have hmem : none ∈ out := mem_of_getAt out jstar none hslot
    simp [make_db_key, hout, hmem]
  · push_neg at hA
    obtain ⟨x, hx, hxks⟩ := hA
    obtain ⟨p, hp, hpk⟩ := List.mem_map.mp hx
    have herr : set_db_keys (create_index ks 0) kwargs
        (List.replicate (create_index ks 0).length none) =
        Except.error PyErr.keyError :=
      set_db_keys_error_of_unknown (create_index ks 0) kwargs _
        ⟨p, hp, (lookup_create_index_none_iff ks 0 p.1).mpr (hpk ▸ hxks)⟩
    simp [make_db_key, herr]

/-- C6: adding a value under a key dictionary whose keys are exactly the
indexed parameter names succeeds, and querying with the same
name-value pairs returns exactly the stored value. -/
theorem flux_database_add_query_roundtrip {V W : Type} [DecidableEq V]
    (ks : List String) (db : FluxDatabase V W)
    (kwargs : List (String × V)) (value : W)
    (hlut : db.lut = create_index ks 0) (hnodup : ks.Nodup)
    (hexact : List.Perm (kwargs.map Prod.fst) ks) :
    ∃ dbA, db.add kwargs value = Except.ok dbA ∧
      dbA.query kwargs = Except.ok value := by
  obtain ⟨out, hout⟩ := make_db_key_ok_of_exact ks kwargs hnodup hexact
  have hmk : make_db_key db.lut kwargs = Except.ok out := by
    rw [hlut]
    exact hout
  refine ⟨{ db with database := (out, value) :: db.database }, ?_, ?_⟩
  · simp [FluxDatabase.add, hmk]
  · simp [FluxDatabase.query, hmk, lookupKV]

/-- Witness for C6 on a two-parameter index, with the query keywords given
in a different order than the index. -/
theorem flux_database_add_query_roundtrip_witness :
    ∃ dbA, db_ab.add [("b", 2), ("a", 1)] 7 = Except.ok dbA ∧
      dbA.query [("b", 2), ("a", 1)] = Except.ok 7 := by
  refine flux_database_add_query_roundtrip ["a", "b"] db_ab
    [("b", 2), ("a", 1)] 7 rfl (by decide) ?_
  have : List.map Prod.fst [(("b", 2) : String × ℕ), ("a", 1)] = ["b", "a"] := rfl
  rw [this]
  exact List.Perm.swap "a" "b" []

/-- C7: querying with a complete set of indexed parameter names whose
value combination was never stored raises `KeyError` (from the
`self.database[db_key]` access) and never returns a default. -/
theorem flux_database_query_absent_key_error {V W : Type} [DecidableEq V]
    (db : FluxDatabase V W) (kwargs : List (String × V))
    (db_key : List (Option V))
    (hmk : make_db_key db.lut kwargs = Except.ok db_key)
    (habsent : lookupKV db.database db_key = none) :
    db.query kwargs = Except.error PyErr.keyError := by
  simp [FluxDatabase.query, hmk, habsent]

/-- Witness for C7: a complete one-parameter query against an empty
database mapping. -/
theorem flux_database_query_absent_key_error_witness :
    db_a.query [("a", 5)] = Except.error PyErr.keyError :=
  flux_database_query_absent_key_error db_a [("a", 5)] [some 5] rfl rfl

/-- C10: keyword sets that do not name exactly the indexed parameter
names (an unknown name supplied, or a required name missing) make
`_make_db_key` — and hence both `add` and `query` — raise `KeyError`,
with `add` failing before any write to the database mapping. -/
theorem flux_database_wrong_keys_rejected {V W : Type} [DecidableEq V]
    (ks : List String) (db : FluxDatabase V W)
    (kwargs : List (String × V)) (value : W)
    (hlut : db.lut = create_index ks 0) (hnodupK : ks.Nodup)
    (hnodupA : (kwargs.map Prod.fst).Nodup)
    (hne : ¬ List.Perm (kwargs.map Prod.fst) ks) :
    make_db_key db.lut kwargs = Except.error PyErr.keyError ∧
    db.add kwargs value = Except.error PyErr.keyError ∧
    db.query kwargs = Except.error PyErr.keyError := by
  have hmk : make_db_key db.lut kwargs = Except.error PyErr.keyError := by
    rw [hlut]
    exact make_db_key_error_of_not_exact ks kwargs hnodupK hnodupA hne
  refine ⟨hmk, ?_, ?_⟩
  · simp [FluxDatabase.add, hmk]
  · simp [FluxDatabase.query, hmk]

/-- Witness for C10: querying/adding with the unknown parameter name `b`
on an index holding only `a`. -/
theorem flux_database_wrong_keys_rejected_witness :
    make_db_key db_a.lut [("b", 1)] = Except.error PyErr.keyError ∧
    db_a.add [("b", 1)] 0 = Except.error PyErr.keyError ∧
    db_a.query [("b", 1)] = Except.error PyErr.keyError := by
  refine flux_database_wrong_keys_rejected ["a"] db_a [("b", 1)] 0 rfl
    (by decide) (by decide) ?_
  intro hperm
  have hmem : "b" ∈ (["a"] : List String) := by
    refine hperm.mem_iff.mp ?_
    simp
  simp at hmem
